import Mathlib

/-!
Verification of the kwil-db block-gossip and vote-aggregation layer.

This development shallowly embeds the node's wire codec and gossip
handlers (package `node`, file with `blockProp`, `blkPropStreamHandler`,
`startAckGossip`, `startDiscoveryRequestGossip`,
`startConsensusResetGossip`) as executable Lean functions over byte
lists, and proves the stated properties about them.

Bytes are modelled as `Nat` (values below 256 on real wires); machine
integers are `Int` with explicit reduction modulo `2 ^ 64` where the Go
code converts between `int64` and `uint64`.
-/

namespace KwilNode

/-- Two to the sixty-third power, the signed 64-bit boundary. -/
def i64Half : Nat := 9223372036854775808

/-- Two to the sixty-fourth power, the unsigned 64-bit modulus. -/
def u64Mod : Nat := 18446744073709551616

/-- Go's `uint64(x)` conversion of an `int64` value: reduce modulo `2 ^ 64`. -/
def uint64OfInt (x : Int) : Nat := (x % (u64Mod : Int)).toNat

/-- Reinterpret an unsigned 64-bit value as Go's `int64` (two's complement). -/
def int64OfUint64 (v : Nat) : Int :=
  if v < i64Half then (v : Int) else (v : Int) - (u64Mod : Int)

/-- Go `binary.LittleEndian.PutUint64`: the eight little-endian bytes of `v`. -/
def putUint64LE (v : Nat) : List Nat :=
  [v % 256, v / 256 % 256, v / 65536 % 256, v / 16777216 % 256,
   v / 4294967296 % 256, v / 1099511627776 % 256,
   v / 281474976710656 % 256, v / 72057594037927936 % 256]

/-- Go `binary.LittleEndian.Uint64`: reassemble eight little-endian bytes. -/
def getUint64LE (bs : List Nat) : Nat :=
  match bs with
  | [b0, b1, b2, b3, b4, b5, b6, b7] =>
      b0 + 256 * (b1 + 256 * (b2 + 256 * (b3 + 256 * (b4 + 256 *
        (b5 + 256 * (b6 + 256 * b7))))))
  | _ => 0

theorem putUint64LE_length (v : Nat) : (putUint64LE v).length = 8 := rfl

theorem getUint64LE_putUint64LE (v : Nat) :
    getUint64LE (putUint64LE v) = v % u64Mod := by
  simp only [putUint64LE, getUint64LE, u64Mod]
  omega

theorem int64OfUint64_uint64OfInt (x : Int)
    (hlo : -(i64Half : Int) ≤ x) (hhi : x < (i64Half : Int)) :
    int64OfUint64 (uint64OfInt x) = x := by
  simp only [int64OfUint64, uint64OfInt, i64Half, u64Mod] at *
  omega

theorem uint64OfInt_lt (x : Int) : uint64OfInt x < u64Mod := by
  simp only [uint64OfInt, u64Mod]
  omega

/-- The `blockProp` announcement record (`Height`, `Hash`, `PrevHash`,
`Stamp`, `LeaderSig`). Hashes are 32-byte lists; well-formedness of the
fixed-size fields is carried as hypotheses where needed. -/
structure BlockProp where
  height : Int
  hash : List Nat
  prevHash : List Nat
  stamp : Int
  leaderSig : List Nat
  deriving Repr, DecidableEq

/-- The constant `types.HashLen`, the fixed hash size. -/
def hashLen : Nat := 32

/-- Encoder `blockProp.MarshalBinary`: `Height` u64 little-endian, the two
32-byte hashes, `Stamp` u64, the signature length as u64, then the raw
signature bytes. -/
def BlockProp.marshalBinary (bp : BlockProp) : List Nat :=
  putUint64LE (uint64OfInt bp.height) ++ bp.hash ++ bp.prevHash ++
    putUint64LE (uint64OfInt bp.stamp) ++
    putUint64LE bp.leaderSig.length ++ bp.leaderSig

/-- Error kinds surfaced by `blockProp.ReadFrom`: short input (`io.EOF`
or `io.ErrUnexpectedEOF` from `binary.Read` / `io.ReadFull`) or the
explicit `"invalid signature length"` error. -/
inductive ReadErr where
  | eof
  | invalidSigLength
  deriving Repr, DecidableEq

/-- Outcome of `blockProp.ReadFrom`: success with the decoded value and
the returned byte count, a returned error with the byte count the Go
code reports, or a runtime abort from `make([]byte, sigLen)` with a
negative `sigLen`. -/
inductive ReadOutcome where
  | ok (bp : BlockProp) (n : Int)
  | err (e : ReadErr) (n : Int)
  | panicNegLen
  deriving Repr, DecidableEq

/-- Decoder `blockProp.ReadFrom` over a byte list: read `Height` (8 bytes),
`Hash` (32), `PrevHash` (32), `Stamp` (8), `sigLen` (8); reject
`sigLen > 1000`; `make([]byte, sigLen)` aborts when `sigLen < 0`;
otherwise read `sigLen` signature bytes. Error byte counts mirror the
source: `binary.Read` failures return the accumulated count, while
`io.ReadFull` failures return only that read's count. -/
def BlockProp.readFrom (bs : List Nat) : ReadOutcome :=
  if bs.length < 8 then .err .eof 0 else
  let height := int64OfUint64 (getUint64LE (bs.take 8))
  let r1 := bs.drop 8
  if r1.length < 32 then .err .eof r1.length else
  let hash := r1.take 32
  let r2 := r1.drop 32
  if r2.length < 32 then .err .eof r2.length else
  let prevHash := r2.take 32
  let r3 := r2.drop 32
  if r3.length < 8 then .err .eof 72 else
  let stamp := int64OfUint64 (getUint64LE (r3.take 8))
  let r4 := r3.drop 8
  if r4.length < 8 then .err .eof 80 else
  let sigLen := int64OfUint64 (getUint64LE (r4.take 8))
  let r5 := r4.drop 8
  if sigLen > 1000 then .err .invalidSigLength 88 else
  if sigLen < 0 then .panicNegLen else
  if r5.length < sigLen.toNat then .err .eof r5.length else
  .ok ⟨height, hash, prevHash, stamp, r5.take sigLen.toNat⟩ (88 + sigLen)

/-- Outcome of `blockProp.UnmarshalBinary`, which runs `ReadFrom` on a
`bytes.Reader` and keeps only the error (or the abort). -/
inductive UnmarshalOutcome where
  | ok (bp : BlockProp)
  | err (e : ReadErr)
  | panicNegLen
  deriving Repr, DecidableEq

/-- Decoder `blockProp.UnmarshalBinary`: `ReadFrom` with the byte count dropped. -/
def BlockProp.unmarshalBinary (bs : List Nat) : UnmarshalOutcome :=
  match BlockProp.readFrom bs with
  | .ok bp _ => .ok bp
  | .err e _ => .err e
  | .panicNegLen => .panicNegLen

theorem int64OfUint64_small (v : Nat) (h : v < i64Half) :
    int64OfUint64 v = (v : Int) := by
  simp [int64OfUint64, h]

theorem readFrom_marshalBinary (bp : BlockProp)
    (hh : bp.hash.length = 32) (hp : bp.prevHash.length = 32)
    (hsig : bp.leaderSig.length ≤ 1000)
    (hhlo : -(i64Half : Int) ≤ bp.height) (hhhi : bp.height < (i64Half : Int))
    (hslo : -(i64Half : Int) ≤ bp.stamp) (hshi : bp.stamp < (i64Half : Int)) :
    BlockProp.readFrom bp.marshalBinary =
      ReadOutcome.ok bp ((88 : Int) + bp.leaderSig.length) := by
  obtain ⟨ht, ha, pa, st, sg⟩ := bp
  simp only at hh hp hsig hhlo hhhi hslo hshi
  simp only [BlockProp.marshalBinary, BlockProp.readFrom, List.append_assoc]
  rw [List.take_left' (putUint64LE_length _), List.drop_left' (putUint64LE_length _),
      List.take_left' hh, List.drop_left' hh,
      List.take_left' hp, List.drop_left' hp,
      List.take_left' (putUint64LE_length _), List.drop_left' (putUint64LE_length _),
      List.take_left' (putUint64LE_length _), List.drop_left' (putUint64LE_length _)]
  have hgl : getUint64LE (putUint64LE sg.length) = sg.length := by
    rw [getUint64LE_putUint64LE]; simp only [u64Mod]; omega
  have hsl : int64OfUint64 (getUint64LE (putUint64LE sg.length)) = (sg.length : Int) := by
    rw [hgl]; exact int64OfUint64_small _ (by simp only [i64Half]; omega)
  have hght : getUint64LE (putUint64LE (uint64OfInt ht)) = uint64OfInt ht := by
    rw [getUint64LE_putUint64LE]; exact Nat.mod_eq_of_lt (uint64OfInt_lt _)
  have hgst : getUint64LE (putUint64LE (uint64OfInt st)) = uint64OfInt st := by
    rw [getUint64LE_putUint64LE]; exact Nat.mod_eq_of_lt (uint64OfInt_lt _)
  rw [hght, hgst, hsl, int64OfUint64_uint64OfInt _ hhlo hhhi,
      int64OfUint64_uint64OfInt _ hslo hshi]
  simp only [List.length_append, putUint64LE_length, hh, hp]
  rw [if_neg (by omega), if_neg (by omega), if_neg (by omega), if_neg (by omega),
      if_neg (by omega), if_neg (by omega), if_neg (by omega)]
  rw [if_neg (by omega)]
  simp

/-- A `blockProp` whose `LeaderSig` is 1001 bytes long: `MarshalBinary`
accepts it but decoding rejects it. -/
def c2LongSigProp : BlockProp :=
  ⟨0, List.replicate 32 0, List.replicate 32 0, 0, List.replicate 1001 0⟩

set_option maxRecDepth 8000 in
/-- C2 counterexample: the round-trip law fails for an arbitrary
`LeaderSig` byte string. With a 1001-byte `LeaderSig`, `MarshalBinary`
succeeds but `UnmarshalBinary` of its output returns the
`"invalid signature length"` error instead of the original value. -/
theorem C2_roundtrip_cex :
    BlockProp.unmarshalBinary (BlockProp.marshalBinary c2LongSigProp) =
      UnmarshalOutcome.err ReadErr.invalidSigLength := by decide

/-- C2 (amended): for every `blockProp` with 32-byte hashes, a
`LeaderSig` of at most 1000 bytes, and `Height` and `Stamp` in signed
64-bit range, `UnmarshalBinary (MarshalBinary bp)` succeeds with a value
equal to `bp`; and re-marshaling any value decoded from such an encoding
reproduces the encoded bytes exactly. -/
theorem C2_blockProp_roundtrip (bp : BlockProp)
    (hh : bp.hash.length = 32) (hp : bp.prevHash.length = 32)
    (hsig : bp.leaderSig.length ≤ 1000)
    (hhlo : -(i64Half : Int) ≤ bp.height) (hhhi : bp.height < (i64Half : Int))
    (hslo : -(i64Half : Int) ≤ bp.stamp) (hshi : bp.stamp < (i64Half : Int)) :
    BlockProp.unmarshalBinary bp.marshalBinary = UnmarshalOutcome.ok bp ∧
    ∀ bp2, BlockProp.unmarshalBinary bp.marshalBinary = UnmarshalOutcome.ok bp2 →
      bp2.marshalBinary = bp.marshalBinary := by
  have hr := readFrom_marshalBinary bp hh hp hsig hhlo hhhi hslo hshi
  constructor
  · simp [BlockProp.unmarshalBinary, hr]
  · intro bp2 h2
    simp [BlockProp.unmarshalBinary, hr] at h2
    rw [h2]

/-- A small well-formed `blockProp` used to instantiate C2. -/
def c2WitProp : BlockProp :=
  ⟨5, List.replicate 32 1, List.replicate 32 2, -7, [9, 8, 7]⟩

/-- Witness for C2: the amended round-trip law evaluated at a concrete
well-formed proposal. -/
theorem C2_blockProp_roundtrip_witness :
    BlockProp.unmarshalBinary c2WitProp.marshalBinary =
      UnmarshalOutcome.ok c2WitProp :=
  (C2_blockProp_roundtrip c2WitProp (by decide) (by decide) (by decide)
    (by decide) (by decide) (by decide) (by decide)).1

/-- C3: whenever the input is long enough to contain the header and the
`sigLen` field, and that field decodes to a signed value above 1000,
`ReadFrom` returns the `"invalid signature length"` error having
consumed exactly the 88 header bytes — no `LeaderSig` byte is read —
and `UnmarshalBinary` reports the same error. -/
theorem C3_sigLen_guard (data : List Nat) (hlen : 88 ≤ data.length)
    (hsl : 1000 < int64OfUint64 (getUint64LE ((data.drop 80).take 8))) :
    BlockProp.readFrom data = ReadOutcome.err ReadErr.invalidSigLength 88 ∧
    BlockProp.unmarshalBinary data = UnmarshalOutcome.err ReadErr.invalidSigLength := by
  have hr : BlockProp.readFrom data = ReadOutcome.err ReadErr.invalidSigLength 88 := by
    unfold BlockProp.readFrom
    rw [if_neg (by omega)]
    simp only [List.length_drop, List.drop_drop, Nat.reduceAdd]
    rw [if_neg (by omega), if_neg (by omega), if_neg (by omega), if_neg (by omega)]
    rw [if_pos hsl]
  exact ⟨hr, by simp [BlockProp.unmarshalBinary, hr]⟩

/-- 88 bytes whose `sigLen` field holds 1001. -/
def c3WitData : List Nat := List.replicate 80 0 ++ putUint64LE 1001

/-- Witness for C3: the guard fires on a concrete input carrying
`sigLen = 1001`. -/
theorem C3_sigLen_guard_witness :
    BlockProp.readFrom c3WitData = ReadOutcome.err ReadErr.invalidSigLength 88 ∧
    BlockProp.unmarshalBinary c3WitData = UnmarshalOutcome.err ReadErr.invalidSigLength :=
  C3_sigLen_guard c3WitData (by decide) (by decide)

/-- C9: whenever the `sigLen` field decodes to a negative signed 64-bit
value, the `sigLen > 1000` guard passes and `ReadFrom` aborts at
`make([]byte, sigLen)` (negative slice length) instead of returning an
error, and `UnmarshalBinary` propagates the abort to its caller. -/
theorem C9_negative_sigLen_aborts (data : List Nat) (hlen : 88 ≤ data.length)
    (hsl : int64OfUint64 (getUint64LE ((data.drop 80).take 8)) < 0) :
    BlockProp.readFrom data = ReadOutcome.panicNegLen ∧
    BlockProp.unmarshalBinary data = UnmarshalOutcome.panicNegLen := by
  have hr : BlockProp.readFrom data = ReadOutcome.panicNegLen := by
    unfold BlockProp.readFrom
    rw [if_neg (by omega)]
    simp only [List.length_drop, List.drop_drop, Nat.reduceAdd]
    rw [if_neg (by omega), if_neg (by omega), if_neg (by omega), if_neg (by omega)]
    rw [if_neg (by omega), if_pos hsl]
  exact ⟨hr, by simp [BlockProp.unmarshalBinary, hr]⟩

/-- 88 bytes whose `sigLen` field holds `-1` (eight `0xFF` bytes). -/
def c9WitData : List Nat := List.replicate 80 0 ++ List.replicate 8 255

/-- Witness for C9: decoding aborts on a concrete input whose `sigLen`
field is `-1`. -/
theorem C9_negative_sigLen_aborts_witness :
    BlockProp.readFrom c9WitData = ReadOutcome.panicNegLen ∧
    BlockProp.unmarshalBinary c9WitData = UnmarshalOutcome.panicNegLen :=
  C9_negative_sigLen_aborts c9WitData (by decide) (by decide)

/-- The `types.Role` value as reported by the consensus engine. -/
inductive Role where
  | leader
  | validator
  | sentry
  deriving Repr, DecidableEq

/-- The part of a decoded block header the proposal handler inspects:
its `Height` plus the remaining header bytes, which only feed the
abstract `Hash()` function. -/
structure BlkHeader where
  height : Int
  rest : List Nat
  deriving Repr, DecidableEq

/-- A decoded block: header plus opaque body (transactions, signature).
`ktypes.DecodeBlock` is an external collaborator and is passed in as a
function below. -/
structure Blk where
  header : BlkHeader
  body : List Nat
  deriving Repr, DecidableEq

/-- Observable effects of one run of `Node.blkPropStreamHandler`:
whether the `getMsg` token was written back, and which block (if any)
was handed to `CE.NotifyBlockProposal`. The stream is always closed by
the deferred `s.Close()`. -/
structure PropHandlerResult where
  wroteGetMsg : Bool
  notified : Option Blk
  deriving Repr, DecidableEq

/-- Handler `Node.blkPropStreamHandler` over the inbound stream bytes:
decode the `blockProp` prefix; ask `CE.AcceptProposal`; on acceptance
write `getMsg` and decode the remaining bytes as a block; check the
announced height and hash; only then call `CE.NotifyBlockProposal`.
`CE.AcceptProposal`, `ktypes.DecodeBlock` and `Header.Hash()` are
external collaborators passed as functions; stream writes are assumed
to succeed. -/
def blkPropStreamHandler
    (accept : Int → List Nat → List Nat → List Nat → Int → Bool)
    (decodeBlock : List Nat → Option Blk)
    (hashHeader : BlkHeader → List Nat)
    (stream : List Nat) : PropHandlerResult :=
  match BlockProp.readFrom stream with
  | ReadOutcome.ok prop n =>
      if accept prop.height prop.hash prop.prevHash prop.leaderSig prop.stamp then
        match decodeBlock (stream.drop n.toNat) with
        | none => ⟨true, none⟩
        | some blk =>
            if blk.header.height ≠ prop.height then ⟨true, none⟩
            else if hashHeader blk.header ≠ prop.hash then ⟨true, none⟩
            else ⟨true, some blk⟩
      else ⟨false, none⟩
  | _ => ⟨false, none⟩

/-- C1: the handler notifies `CE.NotifyBlockProposal(blk)` iff the
announcement decodes, `CE.AcceptProposal` returns true, the remainder of
the stream decodes as a block, and the block's height and header hash
match the announcement; on any decode failure or mismatch nothing is
notified, and the `getMsg` token is written iff the announcement decoded
and `AcceptProposal` returned true (never before). -/
theorem C1_blkPropStreamHandler_spec
    (accept : Int → List Nat → List Nat → List Nat → Int → Bool)
    (decodeBlock : List Nat → Option Blk)
    (hashHeader : BlkHeader → List Nat)
    (stream : List Nat) :
    (∀ blk, (blkPropStreamHandler accept decodeBlock hashHeader stream).notified
        = some blk ↔
      ∃ prop n, BlockProp.readFrom stream = ReadOutcome.ok prop n ∧
        accept prop.height prop.hash prop.prevHash prop.leaderSig prop.stamp = true ∧
        decodeBlock (stream.drop n.toNat) = some blk ∧
        blk.header.height = prop.height ∧
        hashHeader blk.header = prop.hash) ∧
    ((blkPropStreamHandler accept decodeBlock hashHeader stream).wroteGetMsg
        = true ↔
      ∃ prop n, BlockProp.readFrom stream = ReadOutcome.ok prop n ∧
        accept prop.height prop.hash prop.prevHash prop.leaderSig prop.stamp = true) := by
  cases hr : BlockProp.readFrom stream with
  | ok prop n =>
      have hex : ∀ (P : BlockProp → Int → Prop),
          (∃ p' n', ReadOutcome.ok prop n = ReadOutcome.ok p' n' ∧ P p' n') ↔
            P prop n := by
        intro P
        constructor
        · rintro ⟨p', n', heq, hp⟩
          injection heq with h1 h2
          subst h1; subst h2
          exact hp
        · exact fun hp => ⟨prop, n, rfl, hp⟩
      simp only [blkPropStreamHandler, hr]
      constructor
      · intro blk
        rw [hex]
        split
        next hacc =>
          split
          next hdec => simp_all
          next b hdec =>
            split
            next hht =>
              simp_all
              rintro rfl h2
              tauto
            next hht =>
              split
              next hhh =>
                simp_all
                rintro rfl h2
                tauto
              next hhh =>
                simp_all
                intro h
                subst h
                tauto
        next hacc => simp [hacc]
      · rw [hex]
        split
        next hacc =>
          split
          next hdec => simp_all
          next b hdec =>
            split
            next hht => simp_all
            next hht =>
              split
              next hhh => simp_all
              next hhh => simp_all
        next hacc => simp [hacc]
  | err e n =>
      constructor
      · intro blk
        simp [blkPropStreamHandler, hr]
      · simp [blkPropStreamHandler, hr]
  | panicNegLen =>
      constructor
      · intro blk
        simp [blkPropStreamHandler, hr]
      · simp [blkPropStreamHandler, hr]

/-- The `types.AckRes` record as built by `Node.sendACK`: the vote flag, the block
height and hash, the optional app hash, plus the validator's signature
and public key. -/
structure AckRes where
  ack : Bool
  height : Int
  blkHash : List Nat
  appHash : Option (List Nat)
  signature : List Nat
  pubKeyType : Nat
  pubKey : List Nat
  deriving Repr, DecidableEq

/-- What the ACK receive loop does with one gossip message: drop it, or
spawn `go n.ce.NotifyACK(pubkeyBytes, ack)` — the `notifyAsync` tag
records that the call is made in a separate task. -/
inductive AckAction where
  | dropped
  | notifyAsync (pubkey : List Nat) (ack : AckRes)
  deriving Repr, DecidableEq

/-- One iteration of the `Node.startAckGossip` receive loop on a
received message, given the node's role, its own peer id, and the
external `AckRes.UnmarshalBinary` and `peers.PubKeyFromPeerID`
collaborators: discard when not leader, discard self-published
messages, discard on decode or key-derivation failure, otherwise
notify the CE asynchronously. -/
def handleAckMsg (role : Role) (me : String)
    (decodeAck : List Nat → Option AckRes)
    (pubKeyFromPeerID : String → Option (List Nat))
    (msgFrom : String) (msgData : List Nat) : AckAction :=
  if role ≠ Role.leader then .dropped
  else if msgFrom = me then .dropped
  else
    match decodeAck msgData with
    | none => .dropped
    | some ack =>
        match pubKeyFromPeerID msgFrom with
        | none => .dropped
        | some pk => .notifyAsync pk ack

/-- C4: `CE.NotifyACK(pk, ack)` is spawned asynchronously for a
received ACK message iff the node is the leader, the message is not
self-published, the payload decodes as an `AckRes`, and a public key
derives from the sender's peer id; in every other case the message is
dropped with no CE call. -/
theorem C4_ack_receive_spec (role : Role) (me : String)
    (decodeAck : List Nat → Option AckRes)
    (pubKeyFromPeerID : String → Option (List Nat))
    (msgFrom : String) (msgData : List Nat) :
    ∀ pk ack,
      handleAckMsg role me decodeAck pubKeyFromPeerID msgFrom msgData =
          AckAction.notifyAsync pk ack ↔
        role = Role.leader ∧ msgFrom ≠ me ∧
          decodeAck msgData = some ack ∧
          pubKeyFromPeerID msgFrom = some pk := by
  intro pk ack
  unfold handleAckMsg
  by_cases hrole : role = Role.leader
  · by_cases hself : msgFrom = me
    · simp [hrole, hself]
    · cases hdec : decodeAck msgData with
      | none => simp [hrole, hself, hdec]
      | some a =>
          cases hpk : pubKeyFromPeerID msgFrom with
          | none => simp [hrole, hself, hdec, hpk]
          | some p =>
              simp [hrole, hself, hdec, hpk]
              constructor
              · rintro ⟨rfl, rfl⟩
                exact ⟨rfl, rfl⟩
              · rintro ⟨h1, h2⟩
                exact ⟨h2, h1⟩
  · simp [hrole]

/-- Witness for C4: a leader receiving a well-formed ACK from another
peer notifies the CE with the derived key, asynchronously. -/
theorem C4_ack_receive_witness :
    handleAckMsg Role.leader "me"
        (fun _ => some ⟨true, 3, [1], none, [2], 1, [4]⟩)
        (fun _ => some [7]) "peerB" [0] =
      AckAction.notifyAsync [7] ⟨true, 3, [1], none, [2], 1, [4]⟩ := by
  rw [C4_ack_receive_spec Role.leader "me" _ _ "peerB" [0] [7]
    ⟨true, 3, [1], none, [2], 1, [4]⟩]
  refine ⟨rfl, by decide, rfl, rfl⟩

/-- The `types.DiscoveryResponse` record. -/
structure DiscRes where
  bestHeight : Int
  deriving Repr, DecidableEq

/-- One iteration of the `Node.startDiscoveryRequestGossip` receive
loop: ignore requests published by this node itself; otherwise read
`bki.Best()` and enqueue a `DiscoveryResponse` carrying the best
height (via `sendDiscoveryResponse`). The CE role argument is
available to the closure but never consulted. -/
def handleDiscReqMsg (role : Role) (me : String) (bestHeight : Int)
    (msgFrom : String) : Option DiscRes :=
  if msgFrom = me then none else some ⟨bestHeight⟩

/-- C8: for every discovery request not originating from the node
itself, a `DiscoveryResponse` carrying `bki.Best()`'s height is
enqueued, whatever the CE role; self-originated requests are ignored. -/
theorem C8_discovery_request_spec (role : Role) (me : String)
    (bestHeight : Int) (msgFrom : String) :
    (handleDiscReqMsg role me bestHeight msgFrom = some ⟨bestHeight⟩ ↔
      msgFrom ≠ me) ∧
    (handleDiscReqMsg role me bestHeight msgFrom = none ↔ msgFrom = me) := by
  unfold handleDiscReqMsg
  by_cases h : msgFrom = me <;> simp [h]

/-- The `types.ConsensusReset` record as built by `Node.sendReset`. -/
structure ConsensusReset where
  toHeight : Int
  txIDs : List (List Nat)
  deriving Repr, DecidableEq

/-- What the consensus-reset receive loop does with one message: drop
it, or call `n.ce.NotifyResetState(reset.ToHeight, reset.TxIDs,
pubkeyBytes)` directly in the receive loop — the `notifySync` tag
records that no separate task is spawned, unlike the ACK and
discovery-response deliveries. -/
inductive ResetAction where
  | dropped
  | notifySync (toHeight : Int) (txIDs : List (List Nat)) (pubkey : List Nat)
  deriving Repr, DecidableEq

/-- One iteration of the `Node.startConsensusResetGossip` receive loop:
discard self-published messages, discard on decode or key-derivation
failure, otherwise call `NotifyResetState` synchronously. The CE role
is available to the closure but never consulted. -/
def handleResetMsg (role : Role) (me : String)
    (decodeReset : List Nat → Option ConsensusReset)
    (pubKeyFromPeerID : String → Option (List Nat))
    (msgFrom : String) (msgData : List Nat) : ResetAction :=
  if msgFrom = me then .dropped
  else
    match decodeReset msgData with
    | none => .dropped
    | some reset =>
        match pubKeyFromPeerID msgFrom with
        | none => .dropped
        | some pk => .notifySync reset.toHeight reset.txIDs pk

/-- C10: `CE.NotifyResetState(toHeight, txIDs, senderPubKey)` is called
— synchronously, in the receive loop, and for every CE role — iff the
message is not self-published, decodes as a `ConsensusReset`, and the
sender public key derives from the peer id. -/
theorem C10_reset_receive_spec (role : Role) (me : String)
    (decodeReset : List Nat → Option ConsensusReset)
    (pubKeyFromPeerID : String → Option (List Nat))
    (msgFrom : String) (msgData : List Nat) :
    ∀ h t pk,
      handleResetMsg role me decodeReset pubKeyFromPeerID msgFrom msgData =
          ResetAction.notifySync h t pk ↔
        msgFrom ≠ me ∧ decodeReset msgData = some ⟨h, t⟩ ∧
          pubKeyFromPeerID msgFrom = some pk := by
  intro h t pk
  unfold handleResetMsg
  by_cases hself : msgFrom = me
  · simp [hself]
  · cases hdec : decodeReset msgData with
    | none => simp [hself, hdec]
    | some r =>
        cases hpk : pubKeyFromPeerID msgFrom with
        | none => simp [hself, hdec, hpk]
        | some p =>
            obtain ⟨rh, rt⟩ := r
            simp [hself, hdec, hpk]
            constructor
            · rintro ⟨rfl, rfl, rfl⟩
              exact ⟨⟨rfl, rfl⟩, rfl⟩
            · rintro ⟨⟨rfl, rfl⟩, h2⟩
              exact ⟨rfl, rfl, h2⟩

/-- Witness for C10: a sentry node (not the leader) still delivers a
well-formed reset from another peer, synchronously. -/
theorem C10_reset_receive_witness :
    handleResetMsg Role.sentry "me"
        (fun _ => some ⟨11, [[1], [2]]⟩) (fun _ => some [9]) "peerA" [0] =
      ResetAction.notifySync 11 [[1], [2]] [9] := by
  rw [C10_reset_receive_spec Role.sentry "me" _ _ "peerA" [0] 11 [[1], [2]] [9]]
  refine ⟨by decide, rfl, rfl⟩

/-- The publish goroutine of `Node.startAckGossip`, run to completion on
the sequence of `AckRes` values taken from `ackChan` (in channel order).
`pubOk i` tells whether the `i`-th `topicAck.Publish` call succeeds;
on a publish failure the goroutine returns, so nothing later is
published. Returns the successfully published payloads in order. -/
def ackPublishLoop (marshal : AckRes → List Nat) (pubOk : Nat → Bool) :
    Nat → List AckRes → List (List Nat)
  | _, [] => []
  | i, a :: rest =>
      if pubOk i then marshal a :: ackPublishLoop marshal pubOk (i + 1) rest
      else []

/-- Index of the first failing publish attempt among the next `n`
attempts starting at attempt `i` (or `n` if all succeed). -/
def firstPubFailure (pubOk : Nat → Bool) : Nat → Nat → Nat
  | _, 0 => 0
  | i, n + 1 => if pubOk i then firstPubFailure pubOk (i + 1) n + 1 else 0

/-- C7: the ACK publish task publishes exactly the marshaled forms of a
prefix of the channel values, in channel order, the prefix ending at
the first failing `Publish`; every value after the first failure is
never published by this task. -/
theorem C7_ack_publish_order (marshal : AckRes → List Nat)
    (pubOk : Nat → Bool) (acks : List AckRes) (i : Nat) :
    ackPublishLoop marshal pubOk i acks =
      ((acks.take (firstPubFailure pubOk i acks.length)).map marshal) := by
  induction acks generalizing i with
  | nil => simp [ackPublishLoop, firstPubFailure]
  | cons a rest ih =>
      by_cases h : pubOk i = true
      · simp [ackPublishLoop, firstPubFailure, h, ih (i + 1)]
      · simp [ackPublishLoop, firstPubFailure, h]

/-- The 32-byte zero hash. -/
def zeroHash : List Nat := List.replicate 32 0

/-- Modelled from the spec: one level of the Merkle tree built by
`CalcMerkleRoot`, whose implementation is not under src/ (only its
tests are). Pair adjacent leaves; if the level has odd count,
duplicate the last; hash each concatenation of two children through
the abstract 32-byte digest `H`. -/
def hashLevel (H : List Nat → List Nat) : List (List Nat) → List (List Nat)
  | [] => []
  | [x] => [H (x ++ x)]
  | x :: y :: rest => H (x ++ y) :: hashLevel H rest

theorem hashLevel_length (H : List Nat → List Nat) :
    ∀ l : List (List Nat), (hashLevel H l).length = (l.length + 1) / 2
  | [] => by simp [hashLevel]
  | [_] => by simp [hashLevel]
  | x :: y :: rest => by
      simp [hashLevel, hashLevel_length H rest]
      omega

/-- Modelled from the spec: `CalcMerkleRoot`, whose implementation is
not under src/. Empty input gives the zero hash, a single leaf is
returned unchanged, and otherwise levels are hashed (duplicating the
last leaf of an odd level) until one root remains. -/
def calcMerkleRoot (H : List Nat → List Nat) : List (List Nat) → List Nat
  | [] => zeroHash
  | [l] => l
  | x :: y :: rest => calcMerkleRoot H (hashLevel H (x :: y :: rest))
termination_by l => l.length
decreasing_by
  simp [hashLevel_length]
  omega

/-- C5: the modelled `CalcMerkleRoot` satisfies the reference Merkle
recurrence — empty input gives the zero hash, one leaf is the root
itself, and a multi-leaf input is reduced level by level, pairing
adjacent leaves, duplicating the last leaf of an odd level, and hashing
each concatenation of two children — and on five leaves it produces
exactly the tree the repository's `TestCalcMerkleRoot_Extended`
expects. -/
theorem C5_calcMerkleRoot_reference :
    (∀ H : List Nat → List Nat, calcMerkleRoot H [] = zeroHash) ∧
    (∀ (H : List Nat → List Nat) (l : List Nat), calcMerkleRoot H [l] = l) ∧
    (∀ (H : List Nat → List Nat) (x y : List Nat) (rest : List (List Nat)),
      calcMerkleRoot H (x :: y :: rest) =
        calcMerkleRoot H (hashLevel H (x :: y :: rest))) ∧
    (∀ (H : List Nat → List Nat) (x y : List Nat) (rest : List (List Nat)),
      hashLevel H (x :: y :: rest) = H (x ++ y) :: hashLevel H rest) ∧
    (∀ (H : List Nat → List Nat) (x : List Nat), hashLevel H [x] = [H (x ++ x)]) ∧
    (∀ (H : List Nat → List Nat) (l1 l2 l3 l4 l5 : List Nat),
      calcMerkleRoot H [l1, l2, l3, l4, l5] =
        H (H (H (l1 ++ l2) ++ H (l3 ++ l4)) ++
           H (H (l5 ++ l5) ++ H (l5 ++ l5)))) := by
  refine ⟨fun H => by simp [calcMerkleRoot], fun H l => by simp [calcMerkleRoot],
    fun H x y rest => ?_, fun H x y rest => by simp [hashLevel],
    fun H x => by simp [hashLevel], fun H l1 l2 l3 l4 l5 => ?_⟩
  · rw [calcMerkleRoot]
  · rw [calcMerkleRoot]
    simp only [hashLevel]
    rw [calcMerkleRoot]
    simp only [hashLevel]
    rw [calcMerkleRoot]
    simp only [hashLevel]
    rw [calcMerkleRoot]

/-- The `types.AckStatus` tag. -/
inductive AckStatus where
  | agree
  | disagree
  | diverge
  deriving Repr, DecidableEq

/-- A `types.Signature`: raw signature bytes, public key bytes, and the
key-type tag. -/
structure VoteSig where
  data : List Nat
  pubKey : List Nat
  pubKeyType : Nat
  deriving Repr, DecidableEq

/-- A `types.VoteInfo`: signature, ack status, optional app hash. -/
structure VoteInfo where
  sig : VoteSig
  ackStatus : AckStatus
  appHash : Option (List Nat)
  deriving Repr, DecidableEq

/-- Modelled from the spec: the canonical vote digest over
`(BlockID, Ack, AppHash?)`; the digest and `SignVote` implementations
are not under src/ (only their tests are). Any injective-enough
canonical byte string works for the properties proved here. -/
def voteDigestBytes (blkID : List Nat) (ack : Bool)
    (appHash : Option (List Nat)) : List Nat :=
  blkID ++ (if ack then [1] else [0]) ++
    (match appHash with
     | none => []
     | some h => 1 :: h)

/-- Modelled from the spec: `SignVote(blkID, ack, appHash, key)`. A
positive vote without an app hash is a contract error; otherwise the
canonical digest is signed with the abstract signer `sign`, and the
resulting signature carries the signer's public key `pubOf key` and
key-type tag. -/
def signVote (sign : List Nat → List Nat → List Nat)
    (pubOf : List Nat → List Nat) (keyType : Nat)
    (blkID : List Nat) (ack : Bool) (appHash : Option (List Nat))
    (key : List Nat) : Except String VoteSig :=
  match ack, appHash with
  | true, none => .error "positive vote must commit to an app hash"
  | _, _ =>
      .ok ⟨sign key (voteDigestBytes blkID ack appHash), pubOf key, keyType⟩

/-- Modelled from the spec: `VoteInfo.Verify(blkID, appHash)`.
Reconstruct the digest per the ack status — `Agree` uses the given app
hash with a positive vote, `Disagree` a bare negative vote, `Diverge` a
negative vote with the vote's own app hash, which must be present —
then check the signature under the carried public key with the
abstract verifier. -/
def voteInfoVerify (verify : List Nat → List Nat → List Nat → Bool)
    (vi : VoteInfo) (blkID : List Nat) (appHash : List Nat) : Bool :=
  match vi.ackStatus, vi.appHash with
  | .agree, _ => verify vi.sig.pubKey (voteDigestBytes blkID true (some appHash)) vi.sig.data
  | .disagree, _ => verify vi.sig.pubKey (voteDigestBytes blkID false none) vi.sig.data
  | .diverge, some ah => verify vi.sig.pubKey (voteDigestBytes blkID false (some ah)) vi.sig.data
  | .diverge, none => false

/-- C6: for any abstract signature scheme in which verification accepts
honestly produced signatures, `SignVote(blkID, true, nil, key)` returns
an error, while `SignVote(blkID, true, some appHash, key)` succeeds and
the resulting `VoteInfo` with status `Agree` passes
`Verify(blkID, appHash)` under the signer's public key. -/
theorem C6_signVote_spec (sign : List Nat → List Nat → List Nat)
    (pubOf : List Nat → List Nat)
    (verify : List Nat → List Nat → List Nat → Bool) (keyType : Nat)
    (blkID appHash key : List Nat)
    (hverify : ∀ k m, verify (pubOf k) m (sign k m) = true) :
    signVote sign pubOf keyType blkID true none key =
      .error "positive vote must commit to an app hash" ∧
    ∃ sig, signVote sign pubOf keyType blkID true (some appHash) key = .ok sig ∧
      voteInfoVerify verify ⟨sig, AckStatus.agree, none⟩ blkID appHash = true := by
  refine ⟨rfl, ⟨sign key (voteDigestBytes blkID true (some appHash)),
    pubOf key, keyType⟩, rfl, ?_⟩
  simp [voteInfoVerify, hverify]

/-- Witness for C6: a toy scheme (`sign k m = k ++ m`, verification by
re-computing) instantiates the abstract hypotheses. -/
theorem C6_signVote_witness :
    signVote (fun k m => k ++ m) id 1 [3] true none [7] =
      .error "positive vote must commit to an app hash" ∧
    ∃ sig, signVote (fun k m => k ++ m) id 1 [3] true (some [5]) [7] = .ok sig ∧
      voteInfoVerify (fun p m s => decide (s = p ++ m))
        ⟨sig, AckStatus.agree, none⟩ [3] [5] = true :=
  C6_signVote_spec (fun k m => k ++ m) id (fun p m s => decide (s = p ++ m)) 1
    [3] [5] [7] (by intro k m; simp)

end KwilNode
